import Mathlib

/-! exechelper: a shallow embedding of the launcher and its option catalogue

The Go package `exechelper` wraps `os/exec`: `Start` tokenizes a command
string, builds an `*exec.Cmd`, applies a list of `*Option` values to it,
starts the process and reports completion on a channel of capacity one.

The embedding passes state explicitly.  A pointer to an `exec.Cmd` becomes a
`Cmd` value threaded through every mutator; state outside the command that a
launch touches (the contents of the writers bound to the standard streams)
lives in `World`.  Collaborators that are not
part of the package (the tokenizer `shlex.Split`, `cmd.Start`, `cmd.Wait`) are
fields of `Sys` and stay arbitrary in every theorem that quantifies over them.

Go strings are modelled by Lean strings, a nil-able Go value by `Option`.
The goroutine `Start` spawns is sequenced after the body of `Start`: the
trace of an `Outcome` lists what the launching side does to the channel, in
program order.
-/

set_option autoImplicit false

namespace exechelper

/-! ## Errors -/

/-- Go `error` values that are not nil. `New`, `Errorf` and `Wrap` are the
constructors of `github.com/pkg/errors` the package uses; every error of a
collaborator is some value of this type as well. -/
inductive Error where
  | New (text : String)
  | Errorf (format : String) (args : List String)
  | Wrap (cause : Error) (message : String)
  deriving DecidableEq, Repr

/-- Run-time failures of the Go program that are not `error` values. -/
inductive Fault where
  /-- Go `panic: runtime error: index out of range [index] with length len`. -/
  | indexOutOfRange (index len : Nat)
  /-- A receive on a channel that is never written and never closed. -/
  | deadlock
  deriving DecidableEq, Repr

/-! ## State -/

/-- Identity of a `context.Context` value that is not nil. -/
abbrev Context := Nat

/-- Identity of an `io.Writer` (in the tests: a `*bytes.Buffer`). -/
abbrev Writer := Nat

/-- Identity of an `io.Reader`. -/
abbrev Reader := Nat

/-- Go `exec.Cmd`, the fields the package reads or writes. `ctx` is the
context the command was built with (`exec.CommandContext`), nil for
`exec.Command`. -/
structure Cmd where
  ctx : Option Context
  Path : String
  Args : List String
  Env : List String
  Dir : String
  Stdin : Option Reader
  Stdout : Option Writer
  Stderr : Option Writer
  deriving DecidableEq, Repr

/-- State outside the `exec.Cmd`: `written` holds the bytes each writer has
received so far. -/
structure World where
  written : Writer → List Nat

/-- Go `Write(b)` on the writer bound to a stream; a nil binding discards. -/
def write (binding : Option Writer) (b : List Nat) (w : World) : World :=
  match binding with
  | none => w
  | some x => { w with written := fun y => if y = x then w.written y ++ b else w.written y }

/-! ## Options (options.go) -/

/-- Go `type CmdFunc func(cmd *exec.Cmd) error`: the command is passed by
pointer, so the function returns the command (and the world) it leaves. -/
abbrev CmdFunc := Cmd → World → Option Error × Cmd × World

/-- Go `type Option struct` of options.go (named `ExecOption` here, `Option`
being the Lean type of nil-able values), with its two fields. -/
structure ExecOption where
  Context : Option Context := none
  CmdOption : Option CmdFunc := none

/-- Go `CmdOption(cmdFunc)`: `&Option{CmdOption: cmdFunc}`. -/
def CmdOption (cmdFunc : CmdFunc) : ExecOption :=
  { CmdOption := some cmdFunc }

/-- Go `WithContext(ctx)`: `&Option{Context: ctx}`. -/
def WithContext (ctx : Option Context) : ExecOption :=
  { Context := ctx }

/-- Go `WithArgs(args...)`. -/
def WithArgs (args : List String) : ExecOption :=
  CmdOption (fun cmd w => (none, { cmd with Args := cmd.Args ++ args }, w))

/-- Go `WithStdin(reader)`. -/
def WithStdin (reader : Reader) : ExecOption :=
  CmdOption (fun cmd w => (none, { cmd with Stdin := some reader }, w))

/-- Go `WithStdout(writer)`. -/
def WithStdout (writer : Writer) : ExecOption :=
  CmdOption (fun cmd w => (none, { cmd with Stdout := some writer }, w))

/-- Go `WithStderr(writer)`: `cmd.Stderr = writer`. -/
def WithStderr (writer : Writer) : ExecOption :=
  CmdOption (fun cmd w => (none, { cmd with Stderr := some writer }, w))

/-- Go `strings.HasPrefix(s, pfx)`. -/
def HasPrefix (s pfx : String) : Bool :=
  pfx.data.isPrefixOf s.data

/-- One pass of the outer loop body of `WithEnvKV` for the pair `(key, val)`:
```go
prefix := envs[i] + "="
value := prefix + envs[i+1]
for j, env := range cmd.Env {
    if strings.HasPrefix(env, prefix) {
        cmd.Env[j] = value
        continue
    }
}
cmd.Env = append(cmd.Env, value)
```
The `continue` is the last statement of the inner loop body, so it continues
the inner loop and the append that follows the loop always runs. -/
def WithEnvKV.step (Env : List String) (key val : String) : List String :=
  let pfx := key ++ "="
  let value := pfx ++ val
  let Env := Env.map (fun env => if HasPrefix env pfx then value else env)
  Env ++ [value]

/-- The loop `for i := 0; i < len(envs); i += 2` of `WithEnvKV`, entered
with `len(envs)` even. -/
def WithEnvKV.loop : List String → List String → List String
  | key :: val :: rest, Env => WithEnvKV.loop rest (WithEnvKV.step Env key val)
  | _, Env => Env

/-- Go `WithEnvKV(envs...)`. -/
def WithEnvKV (envs : List String) : ExecOption :=
  CmdOption (fun cmd w =>
    if envs.length % 2 ≠ 0 then
      (some (Error.Errorf "WithEnvKV requires an even number of arguments, odd number provided" []),
        cmd, w)
    else
      (none, { cmd with Env := WithEnvKV.loop envs cmd.Env }, w))

/-- Where the first `sep` of a character list is: what stands before it and
what stands after it; none when `sep` does not occur. -/
def cutFirst (sep : Char) : List Char → Option (List Char × List Char)
  | [] => none
  | c :: cs =>
    if c = sep then some ([], cs)
    else match cutFirst sep cs with
      | none => none
      | some (before, after) => some (c :: before, after)

/-- Go `strings.SplitN(s, "=", 2)`: at most two substrings, the second one
being the unsplit remainder after the first `=`. -/
def SplitN_eq_2 (s : String) : List String :=
  match cutFirst '=' s.data with
  | none => [s]
  | some (before, after) => [String.mk before, String.mk after]

/-- The loop of `WithEnvirons` over the remaining `environs`, `envs` being
the key/value list built so far. -/
def WithEnvirons.loop : List String → List String → ExecOption
  | [], envs => WithEnvKV envs
  | env :: rest, envs =>
    let kv := SplitN_eq_2 env
    match kv with
    | [k, v] => WithEnvirons.loop rest (envs ++ [k, v])
    | _ =>
      CmdOption (fun cmd w =>
        (some (Error.Errorf "environs variable %q is not properly formated as key=value" [env]),
          cmd, w))

/-- Go `WithEnvirons(environs...)`. -/
def WithEnvirons (environs : List String) : ExecOption :=
  WithEnvirons.loop environs []

/-- Go `WithEnvMap(envMap)`. The map is given as the list of its entries in
the order the `range` statement happens to visit them. -/
def WithEnvMap (envMap : List (String × String)) : ExecOption :=
  WithEnvKV (envMap.foldl (fun envs kv => envs ++ [kv.1, kv.2]) [])

/-! ## The launcher (exechelper.go) -/

/-- Collaborators of the launcher: `shlex.Split`, `(*exec.Cmd).Start` and
`(*exec.Cmd).Wait`. `Wait` stands for the whole life of the started process,
so everything the process does to the world happens there. -/
structure Sys where
  Split : String → Except Error (List String)
  Start : Cmd → World → Option Error × World
  Wait : Cmd → World → Option Error × World

/-- Go `exec.Command(name, arg...)`. -/
def exec.Command (name : String) (arg : List String) : Cmd :=
  { ctx := none, Path := name, Args := name :: arg, Env := [], Dir := "",
    Stdin := none, Stdout := none, Stderr := none }

/-- Go `exec.CommandContext(ctx, name, arg...)`. -/
def exec.CommandContext (ctx : Context) (name : String) (arg : List String) : Cmd :=
  { exec.Command name arg with ctx := some ctx }

/-- What the launching side does, in program order. -/
inductive Event where
  /-- Call of `options[i].CmdOption(cmd)`. -/
  | CmdOption (i : Nat)
  /-- Call of `cmd.Start()`. -/
  | Start
  /-- Call of `cmd.Wait()`. -/
  | Wait
  /-- Send `errCh <- err`. -/
  | send (err : Error)
  /-- Call of `close(errCh)`. -/
  | close
  deriving DecidableEq, Repr

/-- A completed launch: the command that was built (nil when tokenization
failed), the trace and the world left behind. -/
structure Outcome where
  cmd : Option Cmd
  trace : List Event
  world : World

/-- The first loop of `Start`:
```go
var ctx context.Context
for _, option := range options {
    ctx = option.Context
}
``` -/
def Start.ctx (options : List ExecOption) : Option Context :=
  options.foldl (fun _ option => option.Context) none

/-- The second loop of `Start`, from position `i` on: every `CmdOption` that
is not nil is applied; the first error ends the loop. Returns the error, the
command, the world and the events of the loop. -/
def Start.apply : List ExecOption → Nat → Cmd → World → Option Error × Cmd × World × List Event
  | [], _, cmd, w => (none, cmd, w, [])
  | option :: rest, i, cmd, w =>
    match option.CmdOption with
    | none => Start.apply rest (i + 1) cmd w
    | some f =>
      match f cmd w with
      | (some err, cmd1, w1) => (some err, cmd1, w1, [Event.CmdOption i])
      | (none, cmd1, w1) =>
        let r := Start.apply rest (i + 1) cmd1 w1
        (r.1, r.2.1, r.2.2.1, Event.CmdOption i :: r.2.2.2)

/-- The `switch ctx` of `Start` that creates the `*exec.Cmd`. -/
def Start.command (ctx : Option Context) (name : String) (arg : List String) : Cmd :=
  match ctx with
  | none => exec.Command name arg
  | some c => exec.CommandContext c name arg

/-- What the body of the second loop of `Start` does with one option. -/
def applyOption (option : ExecOption) (cmd : Cmd) (w : World) : Option Error × Cmd × World :=
  match option.CmdOption with
  | none => (none, cmd, w)
  | some f => f cmd w

/-- Go `Start(cmdStr, options...)`, together with the goroutine it spawns. -/
def Start (sys : Sys) (cmdStr : String) (options : List ExecOption) (w : World) :
    Except Fault Outcome :=
  -- Set the context
  let ctx := Start.ctx options
  -- Construct the command args
  match sys.Split cmdStr with
  | .error err => .ok { cmd := none, trace := [Event.send err, Event.close], world := w }
  | .ok args =>
    -- Create the *exec.Cmd
    match args[0]? with
    | none => .error (Fault.indexOutOfRange 0 args.length)
    | some name =>
      let cmd := Start.command ctx name (args.drop 1)
      -- Apply the options to the *exec.Cmd
      match Start.apply options 0 cmd w with
      | (some err, cmd1, w1, tr) =>
        .ok { cmd := some cmd1, trace := tr ++ [Event.send err, Event.close], world := w1 }
      | (none, cmd1, w1, tr) =>
        -- Start the *exec.Cmd
        match sys.Start cmd1 w1 with
        | (some err, w2) =>
          .ok { cmd := some cmd1, trace := tr ++ [Event.Start, Event.send err, Event.close],
                world := w2 }
        | (none, w2) =>
          -- Collect the wait
          match sys.Wait cmd1 w2 with
          | (some err, w3) =>
            .ok { cmd := some cmd1,
                  trace := tr ++ [Event.Start, Event.Wait, Event.send err, Event.close],
                  world := w3 }
          | (none, w3) =>
            .ok { cmd := some cmd1, trace := tr ++ [Event.Start, Event.Wait, Event.close],
                  world := w3 }

/-- Go `<-errCh` once the launch has run to completion: the value that was
sent, or the zero value nil of a channel closed empty. -/
def recv : List Event → Except Fault (Option Error)
  | [] => .error Fault.deadlock
  | Event.send err :: _ => .ok (some err)
  | Event.close :: _ => .ok none
  | _ :: rest => recv rest

/-- Go `Run(cmdStr, options...)`: `return <-Start(cmdStr, options...)`. -/
def Run (sys : Sys) (cmdStr : String) (options : List ExecOption) (w : World) :
    Except Fault (Option Error × World) :=
  match Start sys cmdStr options w with
  | .error f => .error f
  | .ok o =>
    match recv o.trace with
    | .error f => .error f
    | .ok err => .ok (err, o.world)

/-- Go `Output(cmdStr, options...)`; `buffer` is the identity of the fresh
`bytes.NewBuffer([]byte{})`. Returns the bytes (nil on failure) and the
error. -/
def Output (sys : Sys) (buffer : Writer) (cmdStr : String) (options : List ExecOption)
    (w : World) : Except Fault (Option (List Nat) × Option Error × World) :=
  let options := options ++ [WithStdout buffer]
  match Run sys cmdStr options w with
  | .error f => .error f
  | .ok (some err, w1) => .ok (none, some err, w1)
  | .ok (none, w1) => .ok (some (w1.written buffer), none, w1)

/-- Go `CombinedOutput(cmdStr, options...)`. -/
def CombinedOutput (sys : Sys) (buffer : Writer) (cmdStr : String) (options : List ExecOption)
    (w : World) : Except Fault (Option (List Nat) × Option Error × World) :=
  let options := options ++ [WithStdout buffer, WithStderr buffer]
  match Run sys cmdStr options w with
  | .error f => .error f
  | .ok (some err, w1) => .ok (none, some err, w1)
  | .ok (none, w1) => .ok (some (w1.written buffer), none, w1)

/-! ## Concrete inputs -/

/-- A world in which no writer has received anything. -/
def World.calm : World :=
  { written := fun _ => [] }

/-- Collaborators of a launch whose tokenizer yields `args`, whose process
starts, writes `stderr` to its standard error and exits with `exit`. -/
def Sys.fixed (args : List String) (stderr : List Nat) (exit : Option Error) : Sys :=
  { Split := fun _ => .ok args
    Start := fun _ w => (none, w)
    Wait := fun cmd w => (exit, write cmd.Stderr stderr w) }

/-! ## Vocabulary of the statements -/

/-- What an option reports when it is applied in state `s`: the error of its
mutator, nil for an option without one. -/
def reports (option : ExecOption) (s : Cmd × World) : Option Error :=
  (applyOption option s.1 s.2).1

/-- The command and the world an option leaves when it is applied in state
`s`, whatever it reports. -/
def mutate (s : Cmd × World) (option : ExecOption) : Cmd × World :=
  (applyOption option s.1 s.2).2

/-- The state after the mutators of `options` have been applied one after
the other, in the order of the list. -/
def mutated (options : List ExecOption) (s : Cmd × World) : Cmd × World :=
  options.foldl mutate s

/-- Position `i` is the first whose mutator fails, and it fails with `e`:
every earlier option, applied to what its predecessors left, reports nil. -/
def FirstFailure (options : List ExecOption) (s : Cmd × World) (i : Nat) (e : Error) : Prop :=
  (∃ option, options[i]? = some option ∧ reports option (mutated (options.take i) s) = some e) ∧
  ∀ j option, j < i → options[j]? = some option →
    reports option (mutated (options.take j) s) = none

/-- No mutator fails when the options are applied in order. -/
def NoFailure (options : List ExecOption) (s : Cmd × World) : Prop :=
  ∀ j option, options[j]? = some option → reports option (mutated (options.take j) s) = none

/-- The calls of mutators, numbered from `k`, when all of `options` are
visited: one event for each option that has a mutator, in list order. -/
def calls (k : Nat) (options : List ExecOption) : List Event :=
  ((options.enumFrom k).filter (fun p => p.2.CmdOption.isSome)).map
    (fun p => Event.CmdOption p.1)

/-- The channel operations of a trace, in order. -/
def onChannel (trace : List Event) : List Event :=
  trace.filter (fun ev =>
    match ev with
    | Event.send _ => true
    | Event.close => true
    | _ => false)

/-- Some stage of the launch fails: tokenization, a mutator, the start of
the process, or the process itself (its wait reports an error). A stage
counts only when every stage before it succeeded. -/
def StageFailed (sys : Sys) (cmdStr : String) (options : List ExecOption) (w : World) : Prop :=
  (∃ e, sys.Split cmdStr = .error e) ∨
  ∃ args name, sys.Split cmdStr = .ok args ∧ args[0]? = some name ∧
    ((∃ i e, FirstFailure options (Start.command (Start.ctx options) name (args.drop 1), w) i e) ∨
     (NoFailure options (Start.command (Start.ctx options) name (args.drop 1), w) ∧
      ((sys.Start
          (mutated options (Start.command (Start.ctx options) name (args.drop 1), w)).1
          (mutated options (Start.command (Start.ctx options) name (args.drop 1), w)).2).1 ≠ none ∨
       (sys.Wait
          (mutated options (Start.command (Start.ctx options) name (args.drop 1), w)).1
          (sys.Start
            (mutated options (Start.command (Start.ctx options) name (args.drop 1), w)).1
            (mutated options (Start.command (Start.ctx options) name (args.drop 1), w)).2).2).1
          ≠ none)))

/-! ## Auxiliary facts -/

theorem HasPrefix_append (p v : String) : HasPrefix (p ++ v) p = true := by
  simp [HasPrefix, String.data_append]

theorem append_left_cancel (p a b : String) (h : p ++ a = p ++ b) : a = b := by
  have h1 : (p ++ a).data = (p ++ b).data := by rw [h]
  rw [String.data_append, String.data_append] at h1
  exact String.ext (List.append_cancel_left h1)

theorem step_prefixed (Env : List String) (k v e : String)
    (he : e ∈ WithEnvKV.step Env k v) (hp : HasPrefix e (k ++ "=") = true) :
    e = k ++ "=" ++ v := by
  simp only [WithEnvKV.step, List.mem_append, List.mem_map, List.mem_singleton] at he
  rcases he with ⟨a, _, ha⟩ | he
  · by_cases hpa : HasPrefix a (k ++ "=") = true
    · rw [if_pos hpa] at ha
      exact ha.symm
    · rw [if_neg hpa] at ha
      rw [ha] at hpa
      exact absurd hp hpa
  · exact he

theorem step_appended (Env : List String) (k v : String) :
    k ++ "=" ++ v ∈ WithEnvKV.step Env k v := by
  simp [WithEnvKV.step]

theorem apply_of_firstFailure (options : List ExecOption) :
    ∀ (i k : Nat) (cmd : Cmd) (w : World) (e : Error),
      FirstFailure options (cmd, w) i e →
      Start.apply options k cmd w =
        (some e, (mutated (options.take (i + 1)) (cmd, w)).1,
          (mutated (options.take (i + 1)) (cmd, w)).2, calls k (options.take (i + 1))) := by
  induction options with
  | nil =>
    intro i k cmd w e h
    obtain ⟨⟨o, ho, _⟩, _⟩ := h
    simp at ho
  | cons o rest ih =>
    intro i k cmd w e h
    obtain ⟨⟨oi, hoi, hrep⟩, hbefore⟩ := h
    cases i with
    | zero =>
      simp only [List.getElem?_cons_zero, Option.some.injEq] at hoi
      subst hoi
      simp only [List.take_zero, mutated, List.foldl_nil, reports, applyOption] at hrep
      cases hc : o.CmdOption with
      | none => simp [hc] at hrep
      | some f =>
        simp only [hc] at hrep
        rcases hf : f cmd w with ⟨err, cmd1, w1⟩
        rw [hf] at hrep
        simp only at hrep
        subst hrep
        simp [Start.apply, hc, hf, mutated, mutate, applyOption, calls, List.enumFrom]
    | succ i =>
      have h0 : reports o (cmd, w) = none := by
        have := hbefore 0 o (Nat.succ_pos i) (by simp)
        simpa [mutated] using this
      have hrest : FirstFailure rest (mutate (cmd, w) o) i e := by
        refine ⟨⟨oi, by simpa using hoi, by simpa [mutated] using hrep⟩, ?_⟩
        intro j oj hj hoj
        have := hbefore (j + 1) oj (Nat.succ_lt_succ hj) (by simpa using hoj)
        simpa [mutated] using this
      have ih1 := ih i (k + 1) (mutate (cmd, w) o).1 (mutate (cmd, w) o).2 e hrest
      simp only [reports, applyOption] at h0
      cases hc : o.CmdOption with
      | none =>
        have hm : mutate (cmd, w) o = (cmd, w) := by simp [mutate, applyOption, hc]
        rw [hm] at ih1
        simp only [Start.apply, hc]
        rw [ih1]
        simp [mutated, hm, calls, List.enumFrom, hc]
      | some f =>
        simp only [hc] at h0
        rcases hf : f cmd w with ⟨err, cmd1, w1⟩
        rw [hf] at h0
        simp only at h0
        subst h0
        have hm : mutate (cmd, w) o = (cmd1, w1) := by simp [mutate, applyOption, hc, hf]
        rw [hm] at ih1
        simp only [Start.apply, hc, hf]
        rw [ih1]
        simp [mutated, hm, calls, List.enumFrom, hc]

theorem apply_of_noFailure (options : List ExecOption) :
    ∀ (k : Nat) (cmd : Cmd) (w : World),
      NoFailure options (cmd, w) →
      Start.apply options k cmd w =
        (none, (mutated options (cmd, w)).1, (mutated options (cmd, w)).2, calls k options) := by
  induction options with
  | nil =>
    intro k cmd w _
    simp [Start.apply, mutated, calls]
  | cons o rest ih =>
    intro k cmd w h
    have h0 : reports o (cmd, w) = none := by
      have := h 0 o (by simp)
      simpa [mutated] using this
    have hrest : NoFailure rest (mutate (cmd, w) o) := by
      intro j oj hoj
      have := h (j + 1) oj (by simpa using hoj)
      simpa [mutated] using this
    have ih1 := ih (k + 1) (mutate (cmd, w) o).1 (mutate (cmd, w) o).2 hrest
    simp only [reports, applyOption] at h0
    cases hc : o.CmdOption with
    | none =>
      have hm : mutate (cmd, w) o = (cmd, w) := by simp [mutate, applyOption, hc]
      rw [hm] at ih1
      simp only [Start.apply, hc]
      rw [ih1]
      simp [mutated, hm, calls, List.enumFrom, hc]
    | some f =>
      simp only [hc] at h0
      rcases hf : f cmd w with ⟨err, cmd1, w1⟩
      rw [hf] at h0
      simp only at h0
      subst h0
      have hm : mutate (cmd, w) o = (cmd1, w1) := by simp [mutate, applyOption, hc, hf]
      rw [hm] at ih1
      simp only [Start.apply, hc, hf]
      rw [ih1]
      simp [mutated, hm, calls, List.enumFrom, hc]

theorem firstFailure_or_noFailure (options : List ExecOption) (s : Cmd × World) :
    (∃ i e, FirstFailure options s i e) ∨ NoFailure options s := by
  by_cases h : ∃ j, ∃ option, options[j]? = some option ∧
      reports option (mutated (options.take j) s) ≠ none
  · left
    classical
    have hmin := Nat.find_spec h
    have hlt := fun m (hm : m < Nat.find h) => Nat.find_min h hm
    obtain ⟨o, ho, hne⟩ := hmin
    obtain ⟨e, he⟩ := Option.ne_none_iff_exists'.mp hne
    refine ⟨Nat.find h, e, ⟨o, ho, he⟩, ?_⟩
    intro j oj hj hoj
    by_contra hcon
    exact hlt j hj ⟨oj, hoj, hcon⟩
  · right
    intro j o ho
    by_contra hcon
    exact h ⟨j, o, ho, hcon⟩

theorem calls_shape (k : Nat) (options : List ExecOption) :
    ∀ ev ∈ calls k options, ∃ j, ev = Event.CmdOption j := by
  intro ev hev
  simp only [calls, List.mem_map] at hev
  obtain ⟨p, _, hp⟩ := hev
  exact ⟨p.1, hp.symm⟩

theorem mem_calls (options : List ExecOption) (j : Nat) :
    Event.CmdOption j ∈ calls 0 options ↔
      ∃ option, options[j]? = some option ∧ option.CmdOption.isSome = true := by
  simp only [calls, List.mem_map, List.mem_filter]
  constructor
  · rintro ⟨⟨n, o⟩, ⟨hmem, hsome⟩, hj⟩
    simp only [Event.CmdOption.injEq] at hj
    subst hj
    rw [List.mk_mem_enumFrom_iff_le_and_getElem?_sub] at hmem
    exact ⟨o, by simpa using hmem.2, hsome⟩
  · rintro ⟨o, ho, hsome⟩
    refine ⟨(j, o), ⟨?_, hsome⟩, rfl⟩
    rw [List.mk_mem_enumFrom_iff_le_and_getElem?_sub]
    exact ⟨Nat.zero_le j, by simpa using ho⟩

theorem onChannel_skip (l t : List Event) (h : ∀ ev ∈ l, ∃ j, ev = Event.CmdOption j) :
    onChannel (l ++ t) = onChannel t := by
  induction l with
  | nil => rfl
  | cons a l ih =>
    obtain ⟨j, hj⟩ := h a (List.mem_cons_self a l)
    subst hj
    have := ih (fun ev hev => h ev (List.mem_cons_of_mem _ hev))
    simpa [onChannel, List.filter_cons] using this

theorem recv_skip (l t : List Event) (h : ∀ ev ∈ l, ∃ j, ev = Event.CmdOption j) :
    recv (l ++ t) = recv t := by
  induction l with
  | nil => rfl
  | cons a l ih =>
    obtain ⟨j, hj⟩ := h a (List.mem_cons_self a l)
    subst hj
    have := ih (fun ev hev => h ev (List.mem_cons_of_mem _ hev))
    simpa [recv] using this

theorem Start_of_split_error (sys : Sys) (cmdStr : String) (options : List ExecOption)
    (w : World) (e : Error) (hsplit : sys.Split cmdStr = .error e) :
    Start sys cmdStr options w =
      .ok { cmd := none, trace := [Event.send e, Event.close], world := w } := by
  simp [Start, hsplit]

theorem Start_of_firstFailure (sys : Sys) (cmdStr : String) (options : List ExecOption)
    (w : World) (name : String) (arg : List String) (i : Nat) (e : Error)
    (hsplit : sys.Split cmdStr = .ok (name :: arg))
    (hfail : FirstFailure options (Start.command (Start.ctx options) name arg, w) i e) :
    Start sys cmdStr options w =
      .ok { cmd := some (mutated (options.take (i + 1))
                    (Start.command (Start.ctx options) name arg, w)).1
            trace := calls 0 (options.take (i + 1)) ++ [Event.send e, Event.close]
            world := (mutated (options.take (i + 1))
                    (Start.command (Start.ctx options) name arg, w)).2 } := by
  have h := apply_of_firstFailure options i 0 _ w e hfail
  simp [Start, hsplit, h]

theorem Start_of_noFailure (sys : Sys) (cmdStr : String) (options : List ExecOption)
    (w : World) (name : String) (arg : List String)
    (hsplit : sys.Split cmdStr = .ok (name :: arg))
    (hok : NoFailure options (Start.command (Start.ctx options) name arg, w)) :
    Start sys cmdStr options w =
      match sys.Start (mutated options (Start.command (Start.ctx options) name arg, w)).1
          (mutated options (Start.command (Start.ctx options) name arg, w)).2 with
      | (some err, w2) =>
        .ok { cmd := some (mutated options (Start.command (Start.ctx options) name arg, w)).1
              trace := calls 0 options ++ [Event.Start, Event.send err, Event.close]
              world := w2 }
      | (none, w2) =>
        match sys.Wait (mutated options (Start.command (Start.ctx options) name arg, w)).1 w2 with
        | (some err, w3) =>
          .ok { cmd := some (mutated options (Start.command (Start.ctx options) name arg, w)).1
                trace := calls 0 options ++ [Event.Start, Event.Wait, Event.send err, Event.close]
                world := w3 }
        | (none, w3) =>
          .ok { cmd := some (mutated options (Start.command (Start.ctx options) name arg, w)).1
                trace := calls 0 options ++ [Event.Start, Event.Wait, Event.close]
                world := w3 } := by
  have h := apply_of_noFailure options 0 _ w hok
  simp only [Start, hsplit, List.getElem?_cons_zero, List.drop_succ_cons, List.drop_zero, h]

/-! ## The launcher: ordering of mutators and the channel protocol -/

/-- C3: when the tokenizer yields a program name and position `i` is the
first option whose mutator fails (with `e`), `Start` calls the mutators of
positions `0..i` in list order and no other, leaves the command and the world
as those calls left them, never calls `cmd.Start`, and sends exactly `e`
before closing the channel; `Run` returns `e`, and so does `Output` whenever
the list `Start` received is the one `Output` built. -/
theorem Start_aborts_at_first_failing_mutator (sys : Sys) (buffer : Writer) (cmdStr : String)
    (options : List ExecOption) (w : World) (name : String) (arg : List String) (i : Nat)
    (e : Error)
    (hsplit : sys.Split cmdStr = .ok (name :: arg))
    (hfail : FirstFailure options (Start.command (Start.ctx options) name arg, w) i e) :
    ∃ o, Start sys cmdStr options w = .ok o ∧
      o.trace = calls 0 (options.take (i + 1)) ++ [Event.send e, Event.close] ∧
      (∀ j, Event.CmdOption j ∈ o.trace ↔
        j ≤ i ∧ ∃ option, options[j]? = some option ∧ option.CmdOption.isSome = true) ∧
      Event.Start ∉ o.trace ∧
      o.cmd = some (mutated (options.take (i + 1))
        (Start.command (Start.ctx options) name arg, w)).1 ∧
      o.world = (mutated (options.take (i + 1))
        (Start.command (Start.ctx options) name arg, w)).2 ∧
      onChannel o.trace = [Event.send e, Event.close] ∧
      Run sys cmdStr options w = .ok (some e, o.world) ∧
      ∀ options0, options = options0 ++ [WithStdout buffer] →
        Output sys buffer cmdStr options0 w = .ok (none, some e, o.world) := by
  have hS := Start_of_firstFailure sys cmdStr options w name arg i e hsplit hfail
  have hshape := calls_shape 0 (options.take (i + 1))
  have hrun : Run sys cmdStr options w =
      .ok (some e, (mutated (options.take (i + 1))
        (Start.command (Start.ctx options) name arg, w)).2) := by
    simp only [Run, hS]
    rw [recv_skip _ _ hshape]
    rfl
  refine ⟨_, hS, rfl, ?_, ?_, rfl, rfl, ?_, hrun, ?_⟩
  · intro j
    simp only [List.mem_append, List.mem_cons, List.mem_singleton, List.not_mem_nil,
      or_false, reduceCtorEq]
    rw [mem_calls, List.getElem?_take]
    by_cases hj : j < i + 1
    · simp only [hj, if_true]
      constructor
      · rintro ⟨o, ho, hs⟩
        exact ⟨Nat.lt_succ_iff.mp hj, o, ho, hs⟩
      · rintro ⟨_, o, ho, hs⟩
        exact ⟨o, ho, hs⟩
    · simp only [hj, if_false]
      constructor
      · rintro ⟨o, ho, _⟩
        exact absurd ho (by simp)
      · rintro ⟨hle, _⟩
        exact absurd (Nat.lt_succ_of_le hle) hj
  · intro hmem
    simp only [List.mem_append, List.mem_cons, List.mem_singleton, List.not_mem_nil,
      or_false, reduceCtorEq] at hmem
    obtain ⟨j, hj⟩ := hshape _ hmem
    exact Event.noConfusion hj
  · show onChannel (calls 0 (options.take (i + 1)) ++ [Event.send e, Event.close]) = _
    rw [onChannel_skip _ _ hshape]
    rfl
  · intro options0 h0
    subst h0
    simp only [Output, hrun]

/-- Channel protocol on the paths where the tokenizer fails or yields a
program name: `Start` returns and the channel operations of the launch are
either one close, or one send followed by one close; the send happens if and
only if some stage failed, and `Run` returns nil exactly when the channel was
closed without a value. -/
theorem Start_channel_protocol (sys : Sys) (cmdStr : String) (options : List ExecOption)
    (w : World) (hne : sys.Split cmdStr ≠ .ok []) :
    ∃ o, Start sys cmdStr options w = .ok o ∧
      (onChannel o.trace = [Event.close] ∨
        ∃ e, onChannel o.trace = [Event.send e, Event.close]) ∧
      ((∃ e, onChannel o.trace = [Event.send e, Event.close]) ↔
        StageFailed sys cmdStr options w) ∧
      (Run sys cmdStr options w = .ok (none, o.world) ↔ onChannel o.trace = [Event.close]) ∧
      ∀ e, onChannel o.trace = [Event.send e, Event.close] →
        Run sys cmdStr options w = .ok (some e, o.world) := by
  cases hsplit : sys.Split cmdStr with
  | error e =>
    have hS := Start_of_split_error sys cmdStr options w e hsplit
    refine ⟨_, hS, Or.inr ⟨e, rfl⟩, ?_, ?_, ?_⟩
    · exact ⟨fun _ => Or.inl ⟨e, hsplit⟩, fun _ => ⟨e, rfl⟩⟩
    · simp [Run, hS, recv, onChannel]
    · intro e1 he1
      simp only [onChannel, List.filter_cons, List.filter_nil, if_true, List.cons.injEq,
        Event.send.injEq, and_true] at he1
      subst he1
      simp [Run, hS, recv]
  | ok args =>
    cases args with
    | nil => exact absurd hsplit hne
    | cons name arg =>
      have hstage : StageFailed sys cmdStr options w ↔
          ((∃ i e, FirstFailure options (Start.command (Start.ctx options) name arg, w) i e) ∨
           (NoFailure options (Start.command (Start.ctx options) name arg, w) ∧
            ((sys.Start
                (mutated options (Start.command (Start.ctx options) name arg, w)).1
                (mutated options (Start.command (Start.ctx options) name arg, w)).2).1 ≠ none ∨
             (sys.Wait
                (mutated options (Start.command (Start.ctx options) name arg, w)).1
                (sys.Start
                  (mutated options (Start.command (Start.ctx options) name arg, w)).1
                  (mutated options (Start.command (Start.ctx options) name arg, w)).2).2).1
                ≠ none))) := by
        simp [StageFailed, hsplit]
      rw [hstage]
      rcases firstFailure_or_noFailure options
          (Start.command (Start.ctx options) name arg, w) with ⟨i, e, hfail⟩ | hok
      · have hS := Start_of_firstFailure sys cmdStr options w name arg i e hsplit hfail
        have hshape := calls_shape 0 (options.take (i + 1))
        have hch : onChannel (calls 0 (options.take (i + 1)) ++ [Event.send e, Event.close]) =
            [Event.send e, Event.close] := by
          rw [onChannel_skip _ _ hshape]
          rfl
        have hrun : Run sys cmdStr options w =
            .ok (some e, (mutated (options.take (i + 1))
              (Start.command (Start.ctx options) name arg, w)).2) := by
          simp only [Run, hS]
          rw [recv_skip _ _ hshape]
          rfl
        refine ⟨_, hS, Or.inr ⟨e, hch⟩, ?_, ?_, ?_⟩
        · exact ⟨fun _ => Or.inl ⟨i, e, hfail⟩, fun _ => ⟨e, hch⟩⟩
        · simp only [hch, hrun]
          simp
        · intro e1 he1
          simp only [hch, List.cons.injEq, Event.send.injEq, and_true] at he1
          subst he1
          exact hrun
      · have hS := Start_of_noFailure sys cmdStr options w name arg hsplit hok
        have hshape := calls_shape 0 options
        have hnofail : ¬ ∃ i e,
            FirstFailure options (Start.command (Start.ctx options) name arg, w) i e := by
          rintro ⟨i, e, ⟨o, ho, hrep⟩, _⟩
          have := hok i o ho
          rw [this] at hrep
          exact Option.noConfusion hrep
        rcases hst : sys.Start
            (mutated options (Start.command (Start.ctx options) name arg, w)).1
            (mutated options (Start.command (Start.ctx options) name arg, w)).2 with ⟨se, w2⟩
        rw [hst] at hS
        cases se with
        | some err =>
          simp only at hS
          have hch : onChannel (calls 0 options ++ [Event.Start, Event.send err, Event.close]) =
              [Event.send err, Event.close] := by
            rw [onChannel_skip _ _ hshape]
            rfl
          have hrun : Run sys cmdStr options w = .ok (some err, w2) := by
            simp only [Run, hS]
            rw [recv_skip _ _ hshape]
            rfl
          refine ⟨_, hS, Or.inr ⟨err, hch⟩, ?_, ?_, ?_⟩
          · exact ⟨fun _ => Or.inr ⟨hok, Or.inl (by simp)⟩, fun _ => ⟨err, hch⟩⟩
          · simp only [hch, hrun]
            simp
          · intro e1 he1
            simp only [hch, List.cons.injEq, Event.send.injEq, and_true] at he1
            subst he1
            exact hrun
        | none =>
          simp only at hS
          rcases hwt : sys.Wait
              (mutated options (Start.command (Start.ctx options) name arg, w)).1 w2
            with ⟨we, w3⟩
          rw [hwt] at hS
          cases we with
          | some err =>
            simp only at hS
            have hch : onChannel
                (calls 0 options ++ [Event.Start, Event.Wait, Event.send err, Event.close]) =
                [Event.send err, Event.close] := by
              rw [onChannel_skip _ _ hshape]
              rfl
            have hrun : Run sys cmdStr options w = .ok (some err, w3) := by
              simp only [Run, hS]
              rw [recv_skip _ _ hshape]
              rfl
            refine ⟨_, hS, Or.inr ⟨err, hch⟩, ?_, ?_, ?_⟩
            · exact ⟨fun _ => Or.inr ⟨hok, Or.inr (by simp [hwt])⟩, fun _ => ⟨err, hch⟩⟩
            · simp only [hch, hrun]
              simp
            · intro e1 he1
              simp only [hch, List.cons.injEq, Event.send.injEq, and_true] at he1
              subst he1
              exact hrun
          | none =>
            simp only at hS
            have hch : onChannel (calls 0 options ++ [Event.Start, Event.Wait, Event.close]) =
                [Event.close] := by
              rw [onChannel_skip _ _ hshape]
              rfl
            have hrun : Run sys cmdStr options w = .ok (none, w3) := by
              simp only [Run, hS]
              rw [recv_skip _ _ hshape]
              rfl
            refine ⟨_, hS, Or.inl hch, ?_, ?_, ?_⟩
            · constructor
              · rintro ⟨e1, he1⟩
                rw [hch] at he1
                simp at he1
              · rintro (hff | ⟨_, hs | hw⟩)
                · exact absurd hff hnofail
                · simp at hs
                · simp [hwt] at hw
            · simp only [hch, hrun]
            · intro e1 he1
              rw [hch] at he1
              simp at he1

/-- Witness of `Start_aborts_at_first_failing_mutator`: `Output("ls", WithArgs("-l"),
CmdOption(fails))`, the second option being the first to fail. -/
theorem Start_aborts_at_first_failing_mutator_witness :
    ∃ o, Start (Sys.fixed ["ls"] [] none) "ls"
        [WithArgs ["-l"], CmdOption (fun cmd w => (some (Error.New "Test Error"), cmd, w)),
          WithStdout 9] World.calm = .ok o ∧
      o.trace = [Event.CmdOption 0, Event.CmdOption 1, Event.send (Error.New "Test Error"),
        Event.close] ∧
      Output (Sys.fixed ["ls"] [] none) 9 "ls"
        [WithArgs ["-l"], CmdOption (fun cmd w => (some (Error.New "Test Error"), cmd, w))]
        World.calm = .ok (none, some (Error.New "Test Error"), o.world) := by
  have hfail : FirstFailure
      [WithArgs ["-l"], CmdOption (fun cmd w => (some (Error.New "Test Error"), cmd, w)),
        WithStdout 9]
      (Start.command (Start.ctx
        [WithArgs ["-l"], CmdOption (fun cmd w => (some (Error.New "Test Error"), cmd, w)),
          WithStdout 9]) "ls" [], World.calm) 1 (Error.New "Test Error") := by
    refine ⟨⟨_, rfl, rfl⟩, ?_⟩
    intro j o hj ho
    have hj0 : j = 0 := by omega
    subst hj0
    simp only [List.getElem?_cons_zero, Option.some.injEq] at ho
    subst ho
    rfl
  obtain ⟨o, hS, htr, _, _, _, _, _, _, hout⟩ :=
    Start_aborts_at_first_failing_mutator (Sys.fixed ["ls"] [] none) 9 "ls" _ World.calm
      "ls" [] 1 (Error.New "Test Error") rfl hfail
  exact ⟨o, hS, htr, hout _ rfl⟩

/-- C4: when the tokenizer yields no token at all, the launch has no outcome:
`Start` panics after the channel was made, so the channel is never closed and
never written, and `Run` returns no value, nil or other. The panic is the one
of `args[0]` on the empty token list. -/
theorem Start_without_tokens_never_closes (sys : Sys) (cmdStr : String)
    (options : List ExecOption) (w : World) (hsplit : sys.Split cmdStr = .ok []) :
    (¬ ∃ o, Start sys cmdStr options w = .ok o) ∧
    (¬ ∃ o, Start sys cmdStr options w = .ok o ∧
      (onChannel o.trace = [Event.close] ∨
        ∃ e, onChannel o.trace = [Event.send e, Event.close])) ∧
    ¬ ∃ r, Run sys cmdStr options w = .ok r := by
  have hS : Start sys cmdStr options w = .error (Fault.indexOutOfRange 0 0) := by
    simp [Start, hsplit]
  refine ⟨?_, ?_, ?_⟩
  · rintro ⟨o, ho⟩
    rw [hS] at ho
    exact Except.noConfusion ho
  · rintro ⟨o, ho, _⟩
    rw [hS] at ho
    exact Except.noConfusion ho
  · rintro ⟨r, hr⟩
    simp [Run, hS] at hr

/-- Witness of `Start_without_tokens_never_closes`: `Run("")`. -/
theorem Start_without_tokens_never_closes_witness :
    (Sys.fixed [] [] none).Split "" = .ok [] ∧
    ¬ ∃ r, Run (Sys.fixed [] [] none) "" [] World.calm = .ok r :=
  ⟨rfl, (Start_without_tokens_never_closes (Sys.fixed [] [] none) "" [] World.calm rfl).2.2⟩

/-- C10: when the tokenizer yields no token at all (as `shlex.Split` does for
the empty string), `args[0]` is out of range: `Start` panics and returns no
channel, and `Run` with it. -/
theorem Start_panics_without_tokens (sys : Sys) (cmdStr : String) (options : List ExecOption)
    (w : World) (hsplit : sys.Split cmdStr = .ok []) :
    Start sys cmdStr options w = .error (Fault.indexOutOfRange 0 0) ∧
    Run sys cmdStr options w = .error (Fault.indexOutOfRange 0 0) := by
  have hS : Start sys cmdStr options w = .error (Fault.indexOutOfRange 0 0) := by
    simp [Start, hsplit]
  exact ⟨hS, by simp [Run, hS]⟩

/-- Witness of `Start_panics_without_tokens`: `Start("")`. -/
theorem Start_panics_without_tokens_witness :
    (Sys.fixed [] [] none).Split "" = .ok [] ∧
    Start (Sys.fixed [] [] none) "" [] World.calm = .error (Fault.indexOutOfRange 0 0) :=
  ⟨rfl, (Start_panics_without_tokens (Sys.fixed [] [] none) "" [] World.calm rfl).1⟩

/-- C1: the context `Start` builds the command with is the `Context` field of
the last option, nil included: in `Start(cmd, WithContext(ctx), CmdOption(f))`
the command is built by `exec.Command`, bound to no context. -/
theorem Start_forgets_context_before_later_option (sys : Sys) (cmdStr : String)
    (name : String) (arg : List String) (c : Context) (w : World)
    (hsplit : sys.Split cmdStr = .ok (name :: arg)) :
    Start.ctx [WithContext (some c), CmdOption (fun cmd w1 => (none, cmd, w1))] = none ∧
    ∃ o, Start sys cmdStr [WithContext (some c), CmdOption (fun cmd w1 => (none, cmd, w1))] w
        = .ok o ∧
      o.cmd = some (exec.Command name arg) ∧
      o.cmd ≠ some (exec.CommandContext c name arg) := by
  refine ⟨rfl, ?_⟩
  rcases hst : sys.Start (exec.Command name arg) w with ⟨se, w2⟩
  rcases hwt : sys.Wait (exec.Command name arg) w2 with ⟨we, w3⟩
  have hne : exec.Command name arg ≠ exec.CommandContext c name arg := by
    simp [exec.Command, exec.CommandContext]
  cases se <;> cases we <;>
    simp [Start, hsplit, Start.ctx, WithContext, CmdOption, Start.command, Start.apply, hst, hwt,
      hne]

/-- Witness of `Start_forgets_context_before_later_option`: the launch of
`TestStartWithContext`. -/
theorem Start_forgets_context_before_later_option_witness :
    (Sys.fixed ["sleep", "600"] [] none).Split "sleep 600" = .ok ("sleep" :: ["600"]) ∧
    Start.ctx [WithContext (some 1), CmdOption (fun cmd w1 => (none, cmd, w1))] = none :=
  ⟨rfl, (Start_forgets_context_before_later_option (Sys.fixed ["sleep", "600"] [] none)
    "sleep 600" "sleep" ["600"] 1 World.calm rfl).1⟩

/-! ## The environment options -/

/-- C5: `WithEnvKV(k, v1, k, v2)` applied to a command with an empty
environment leaves two entries for `k`, both `k=v2`: the entry written for
`v1` is replaced in place and the new value is appended all the same. -/
theorem WithEnvKV_same_key_twice (cmd : Cmd) (w : World) (k v1 v2 : String) :
    (applyOption (WithEnvKV [k, v1, k, v2]) { cmd with Env := [] } w).1 = none ∧
    (applyOption (WithEnvKV [k, v1, k, v2]) { cmd with Env := [] } w).2.1.Env =
      [k ++ "=" ++ v2, k ++ "=" ++ v2] := by
  simp [applyOption, WithEnvKV, CmdOption, WithEnvKV.loop, WithEnvKV.step, HasPrefix_append]

/-- C6: after the mutator of `WithEnvKV(k, v)`, which is also the mutator of
`WithEnvMap` of the one-entry map, every entry that begins with `k=` equals
`k=v` and `k=v` is an entry; after `WithEnvMap({k: v1})` and then
`WithEnvMap({k: v2})` with `v1` different from `v2`, `k=v2` is an entry and
`k=v1` is not. -/
theorem WithEnvKV_overwrites_existing (cmd : Cmd) (w : World) (k v : String) :
    (applyOption (WithEnvKV [k, v]) cmd w).1 = none ∧
    applyOption (WithEnvMap [(k, v)]) cmd w = applyOption (WithEnvKV [k, v]) cmd w ∧
    (∀ e ∈ (applyOption (WithEnvKV [k, v]) cmd w).2.1.Env,
      HasPrefix e (k ++ "=") = true → e = k ++ "=" ++ v) ∧
    (∃ e ∈ (applyOption (WithEnvKV [k, v]) cmd w).2.1.Env, HasPrefix e (k ++ "=") = true) ∧
    ∀ v1 : String, v1 ≠ v →
      (applyOption (WithEnvMap [(k, v)])
        (applyOption (WithEnvMap [(k, v1)]) cmd w).2.1
        (applyOption (WithEnvMap [(k, v1)]) cmd w).2.2).1 = none ∧
      k ++ "=" ++ v ∈
        (applyOption (WithEnvMap [(k, v)])
          (applyOption (WithEnvMap [(k, v1)]) cmd w).2.1
          (applyOption (WithEnvMap [(k, v1)]) cmd w).2.2).2.1.Env ∧
      k ++ "=" ++ v1 ∉
        (applyOption (WithEnvMap [(k, v)])
          (applyOption (WithEnvMap [(k, v1)]) cmd w).2.1
          (applyOption (WithEnvMap [(k, v1)]) cmd w).2.2).2.1.Env := by
  have hone : ∀ (c : Cmd) (x : World) (u : String),
      applyOption (WithEnvKV [k, u]) c x =
        (none, { c with Env := WithEnvKV.step c.Env k u }, x) := by
    intro c x u
    simp [applyOption, WithEnvKV, CmdOption, WithEnvKV.loop]
  have hmap : ∀ u : String, WithEnvMap [(k, u)] = WithEnvKV [k, u] := fun _ => rfl
  refine ⟨by rw [hone], by rw [hmap], ?_, ?_, ?_⟩
  · intro e he hp
    rw [hone] at he
    exact step_prefixed cmd.Env k v e he hp
  · rw [hone]
    exact ⟨k ++ "=" ++ v, step_appended cmd.Env k v, HasPrefix_append (k ++ "=") v⟩
  · intro v1 hv
    rw [hmap, hmap, hone, hone]
    refine ⟨rfl, step_appended _ k v, ?_⟩
    intro hmem
    have := step_prefixed _ k v (k ++ "=" ++ v1) hmem (HasPrefix_append (k ++ "=") v1)
    exact hv (append_left_cancel (k ++ "=") v1 v this)

/-- Witness of `WithEnvKV_overwrites_existing`: the overwrite of
`TestWithEnvMap`, `key1=value1` and then `key1=value2`. -/
theorem WithEnvKV_overwrites_existing_witness :
    "value1" ≠ "value2" ∧
    "key1" ++ "=" ++ "value2" ∈
      (applyOption (WithEnvMap [("key1", "value2")])
        (applyOption (WithEnvMap [("key1", "value1")]) (exec.Command "printenv" [])
          World.calm).2.1
        (applyOption (WithEnvMap [("key1", "value1")]) (exec.Command "printenv" [])
          World.calm).2.2).2.1.Env ∧
    "key1" ++ "=" ++ "value1" ∉
      (applyOption (WithEnvMap [("key1", "value2")])
        (applyOption (WithEnvMap [("key1", "value1")]) (exec.Command "printenv" [])
          World.calm).2.1
        (applyOption (WithEnvMap [("key1", "value1")]) (exec.Command "printenv" [])
          World.calm).2.2).2.1.Env :=
  ⟨by decide,
    ((WithEnvKV_overwrites_existing (exec.Command "printenv" []) World.calm "key1"
      "value2").2.2.2.2 "value1" (by decide)).2⟩

theorem cutFirst_eq_none (sep : Char) (l : List Char) :
    cutFirst sep l = none ↔ sep ∉ l := by
  induction l with
  | nil => simp [cutFirst]
  | cons c cs ih =>
    by_cases hc : c = sep
    · simp [cutFirst, hc]
    · have hc1 : ¬ sep = c := fun h => hc h.symm
      cases hcut : cutFirst sep cs with
      | none => simpa [cutFirst, hc, hc1, hcut] using ih.mp hcut
      | some p =>
        have : ¬ sep ∉ cs := fun h => by
          rw [ih.mpr h] at hcut
          exact Option.noConfusion hcut
        simpa [cutFirst, hc, hc1, hcut] using this

theorem WithEnvirons_loop_fails (cmd : Cmd) (w : World) (environs : List String) :
    ∀ envs : List String, envs.length % 2 = 0 →
      ((applyOption (WithEnvirons.loop environs envs) cmd w).1 ≠ none ↔
        ∃ s ∈ environs, '=' ∉ s.data) := by
  induction environs with
  | nil =>
    intro envs heven
    simp [WithEnvirons.loop, applyOption, WithEnvKV, CmdOption, heven]
  | cons env rest ih =>
    intro envs heven
    cases hcut : cutFirst '=' env.data with
    | none =>
      have hno : '=' ∉ env.data := (cutFirst_eq_none '=' env.data).mp hcut
      simp [WithEnvirons.loop, SplitN_eq_2, hcut, applyOption, CmdOption, hno]
    | some p =>
      have hyes : ¬ '=' ∉ env.data := fun h => by
        rw [(cutFirst_eq_none '=' env.data).mpr h] at hcut
        exact Option.noConfusion hcut
      have heven1 : (envs ++ [String.mk p.1, String.mk p.2]).length % 2 = 0 := by
        simp only [List.length_append, List.length_cons, List.length_nil]
        omega
      have := ih (envs ++ [String.mk p.1, String.mk p.2]) heven1
      simp only [WithEnvirons.loop, SplitN_eq_2, hcut, List.mem_cons, exists_eq_or_imp, hyes,
        false_or]
      exact this

/-- C7 as stated fails: `"a=b=c"` has two `=` and `WithEnvirons("a=b=c")` is
accepted, the entry being split at the first `=` only. -/
theorem WithEnvirons_accepts_second_separator :
    ¬ ((applyOption (WithEnvirons ["a=b=c"]) (exec.Command "printenv" []) World.calm).1 ≠ none ↔
      ∃ s ∈ ["a=b=c"], s.data.count '=' ≠ 1) := by
  decide

/-- C7, amended: the option returned by `WithEnvirons` fails when applied if
and only if some string of the list contains no `=` at all; `"key1"` is
rejected and `"a=b=c"` is accepted. -/
theorem WithEnvirons_fails_iff_no_separator (cmd : Cmd) (w : World) (environs : List String) :
    ((applyOption (WithEnvirons environs) cmd w).1 ≠ none ↔ ∃ s ∈ environs, '=' ∉ s.data) ∧
    (applyOption (WithEnvirons ["key1"]) cmd w).1 ≠ none ∧
    (applyOption (WithEnvirons ["a=b=c"]) cmd w).1 = none := by
  refine ⟨WithEnvirons_loop_fails cmd w environs [] rfl, ?_, ?_⟩
  · exact (WithEnvirons_loop_fails cmd w ["key1"] [] rfl).mpr
      ⟨"key1", List.mem_singleton.mpr rfl, by decide⟩
  · by_contra hfail
    obtain ⟨s, hs, hno⟩ := (WithEnvirons_loop_fails cmd w ["a=b=c"] [] rfl).mp hfail
    rw [List.mem_singleton.mp hs] at hno
    exact hno (by decide)

/-! ## Stream bindings -/

/-- C8: in `Run(cmd, WithStderr(writer1), WithStderr(writer2))` with two
distinct writers, the second binding replaces the first: what the process
writes to its standard error reaches `writer2` only, `writer1` receives
nothing. -/
theorem Run_second_WithStderr_replaces_first (sys : Sys) (cmdStr : String) (name : String)
    (arg : List String) (w : World) (writer1 writer2 : Writer) (b : List Nat)
    (exit : Option Error)
    (hsplit : sys.Split cmdStr = .ok (name :: arg))
    (hstart : ∀ cmd w1, sys.Start cmd w1 = (none, w1))
    (hwait : ∀ cmd w1, sys.Wait cmd w1 = (exit, write cmd.Stderr b w1))
    (hne : writer1 ≠ writer2) :
    ∃ w1, Run sys cmdStr [WithStderr writer1, WithStderr writer2] w = .ok (exit, w1) ∧
      w1.written writer1 = w.written writer1 ∧
      w1.written writer2 = w.written writer2 ++ b := by
  cases exit with
  | none =>
    refine ⟨write (some writer2) b w, ?_, ?_, ?_⟩
    · simp [Run, Start, hsplit, Start.apply, WithStderr, CmdOption, hstart, hwait, recv]
    · simp [write, hne]
    · simp [write]
  | some e =>
    refine ⟨write (some writer2) b w, ?_, ?_, ?_⟩
    · simp [Run, Start, hsplit, Start.apply, WithStderr, CmdOption, hstart, hwait, recv]
    · simp [write, hne]
    · simp [write]

/-- Witness of `Run_second_WithStderr_replaces_first`: the launch of
`TestWithStderr`, the process writing three bytes to its standard error. -/
theorem Run_second_WithStderr_replaces_first_witness :
    ∃ w1, Run (Sys.fixed ["ls", "fdhdhdhahdr"] [108, 115, 58] (some (Error.New "exit status 2")))
        "ls fdhdhdhahdr" [WithStderr 1, WithStderr 2] World.calm
        = .ok (some (Error.New "exit status 2"), w1) ∧
      w1.written 1 = [] ∧ w1.written 2 = [108, 115, 58] :=
  Run_second_WithStderr_replaces_first
    (Sys.fixed ["ls", "fdhdhdhahdr"] [108, 115, 58] (some (Error.New "exit status 2")))
    "ls fdhdhdhahdr" "ls" ["fdhdhdhahdr"] World.calm 1 2 [108, 115, 58]
    (some (Error.New "exit status 2")) rfl (fun _ _ => rfl) (fun _ _ => rfl) (by decide)

end exechelper
